import Mathlib

/-!
# Verification of the ralph-cli iteration supervisor

Shallow embedding of the core of `ralph-cli` (Go): the JSONL event stream
model (`internal/stream`), the per-iteration and cumulative statistics
(`internal/stream/stats.go`), the token formatter and tool-parameter
extraction (`internal/stream/formatter.go`), the JSONL parser skeleton
(`internal/stream/parser.go`), the stale detector and the iteration
supervisor loop with its run-record persistence (`internal/loop`,
`internal/state`).

Modelling conventions:
* Go `string` is Lean `String`; Go `[]byte` lines are `List UInt8`.
* Go `int` fields that hold token counts or counters are modelled as `Nat`
  (they are counts; every claim instance is non-negative); fields compared
  against possibly non-positive configuration values (`MaxIterations`,
  `maxStale`, `staleCount`, iteration indexes) are modelled as `Int`,
  matching the Go comparisons.
* Go `float64` cost values are modelled as `Rat`; the only operations the
  source performs on them are assignment and addition.
* `encoding/json` decoding of a whole line (`json.Unmarshal` into `Event`)
  is a parameter of the parser model: it is an external library call, and
  the claims about the parser concern its skip/error control flow, not the
  JSON grammar.  A tool-use input `json.RawMessage` is modelled by
  `ToolInput`: absent (`nil` raw message), valid JSON that is not an
  object, or an object given as a key/value list with distinct keys.
* I/O errors on the display writer are not modelled (the writer is treated
  as infallible); the only modelled formatter failure is the one decidable
  from the event itself, namely `formatTaskToolUse` failing to unmarshal a
  Task block input that is not a JSON object.
-/

/-! ## internal/stream: data model (parser.go struct declarations) -/

/-- Token usage snapshot of an assistant message (`stream.Usage`). -/
structure Usage where
  inputTokens : Nat
  outputTokens : Nat
  cacheCreationInputTokens : Nat
  cacheReadInputTokens : Nat
  deriving DecidableEq, Repr

/-- A JSON value stored under a key of a tool-use input object.  Only the
distinction "JSON string" / "anything else, kept as raw text" matters to the
source (`jsonStringRaw` in formatter.go). -/
inductive JsonValue where
  | str (s : String)
  | raw (text : String)
  deriving DecidableEq, Repr

/-- The `json.RawMessage` input of a tool-use content block, at the
granularity the source inspects it: `missing` is a nil/empty raw message,
`notObject` is valid JSON that does not unmarshal into
`map[string]json.RawMessage`, `obj` is a JSON object. -/
inductive ToolInput where
  | missing
  | notObject
  | obj (kvs : List (String × JsonValue))
  deriving DecidableEq, Repr

/-- A content element of an assistant message (`stream.ContentBlock`). -/
structure ContentBlock where
  type : String
  text : String
  id : String
  name : String
  input : ToolInput
  deriving DecidableEq, Repr

/-- An assistant message (`stream.Message`). -/
structure Message where
  model : String
  role : String
  content : List ContentBlock
  usage : Option Usage
  deriving DecidableEq, Repr

/-- The result of a tool invocation (`stream.ToolUseResult`); the
`total*` fields are zero except for sub-agent ("Task") results. -/
structure ToolUseResult where
  stdout : String
  status : String
  totalTokens : Nat
  totalDurationMs : Nat
  totalToolUseCount : Nat
  deriving DecidableEq, Repr

/-- A single JSONL event from the agent's stream-json output
(`stream.Event`). -/
structure Event where
  type : String
  message : Option Message
  toolUseResult : Option ToolUseResult
  totalCostUSD : Rat
  deriving DecidableEq, Repr

/-! ## internal/stream/stats.go -/

/-- Statistics of a single loop iteration (`stream.IterationStats`). -/
structure IterationStats where
  peakContext : Nat
  cost : Rat
  subagentTokens : Nat
  toolCalls : Nat
  deriving DecidableEq, Repr

/-- `IterationStats.ObserveAssistant`: update the peak context high-water
mark from an assistant event's usage snapshot (no-op when usage is nil). -/
def IterationStats.observeAssistant (s : IterationStats) (u : Option Usage) :
    IterationStats :=
  match u with
  | none => s
  | some u =>
      let ctx := u.inputTokens + u.cacheCreationInputTokens + u.cacheReadInputTokens
      if s.peakContext < ctx then { s with peakContext := ctx } else s

/-- `IterationStats.ObserveToolUse`: increment the tool call counter. -/
def IterationStats.observeToolUse (s : IterationStats) : IterationStats :=
  { s with toolCalls := s.toolCalls + 1 }

/-- `IterationStats.ObserveSubagent`: accumulate subagent tokens. -/
def IterationStats.observeSubagent (s : IterationStats) (totalTokens : Nat) :
    IterationStats :=
  { s with subagentTokens := s.subagentTokens + totalTokens }

/-- `IterationStats.ObserveResult`: record the iteration cost. -/
def IterationStats.observeResult (s : IterationStats) (costUSD : Rat) :
    IterationStats :=
  { s with cost := costUSD }

/-- Statistics across all iterations (`stream.CumulativeStats`).
`iterations` is a Go `int` compared against `Options.MaxIterations`, hence
`Int`. -/
structure CumulativeStats where
  iterations : Int
  peakContext : Nat
  subagentTokens : Nat
  totalCost : Rat
  deriving DecidableEq, Repr

/-- `CumulativeStats.Update`: merge an iteration's stats into the
cumulative totals. -/
def CumulativeStats.update (c : CumulativeStats) (iter : IterationStats) :
    CumulativeStats :=
  { c with
    iterations := c.iterations + 1
    peakContext := if c.peakContext < iter.peakContext then iter.peakContext else c.peakContext
    subagentTokens := c.subagentTokens + iter.subagentTokens
    totalCost := c.totalCost + iter.cost }

/-! ## internal/stream/formatter.go -/

/-- `stream.FormatTokens`: format a token count for display, flooring via
integer division.  The Go parameter is `int`; token counts are
non-negative, and every claim quantifies over non-negative values only, so
the domain is `Nat` (a negative Go argument would fall through to the
plain `%d` branch). -/
def FormatTokens (n : Nat) : String :=
  if 1000000 ≤ n then
    let whole := n / 100000
    toString (whole / 10) ++ "." ++ toString (whole % 10) ++ "M"
  else if 1000 ≤ n then
    let whole := n / 100
    toString (whole / 10) ++ "." ++ toString (whole % 10) ++ "k"
  else
    toString n

/-- `paramPriority`: the extraction priority for tool-use input
parameters. -/
def paramPriority : List String :=
  ["file_path", "description", "command", "pattern", "query", "url", "skill"]

/-- `jsonStringRaw`: unmarshal a JSON value as a string, falling back to
its raw representation with surrounding space trimmed. -/
def jsonStringRaw : JsonValue → String
  | .str s => s
  | .raw text => text.trim

/-- `truncate`: rune-safe truncation to `limit` characters with a trailing
ellipsis (Go converts the string to `[]rune` first). -/
def truncate (s : String) (limit : Nat) : String :=
  let runes := s.toList
  if limit < runes.length then String.mk (runes.take limit) ++ "…" else s

/-- Association-list lookup standing for Go's `input[key]` map access. -/
def lookupKey (kvs : List (String × JsonValue)) (k : String) : Option JsonValue :=
  (kvs.find? (fun kv => kv.1 = k)).map (·.2)

/-- `extractParam`: extract the most relevant parameter value from a
tool-use input.  Mirrors formatter.go: empty raw message or a non-object
give `""`; otherwise the first priority key whose extracted string is
non-empty wins; otherwise the sorted key names joined by `", "`.  The
sorted-key fallback uses a merge sort by `≤` on strings, matching
`sort.Strings`. -/
def extractParam (input : ToolInput) : String :=
  match input with
  | .missing => ""
  | .notObject => ""
  | .obj kvs =>
      match paramPriority.findSome? (fun key =>
        match lookupKey kvs key with
        | some val =>
            let s := jsonStringRaw val
            if s = "" then none else some s
        | none => none) with
      | some s => truncate s 60
      | none =>
          let keys := (kvs.map (·.1)).mergeSort (fun a b => a ≤ b)
          truncate (String.intercalate ", " keys) 60

/-! ## internal/stream/process.go -/

/-- Fold a single event into the iteration stats, mirroring the `switch`
in `stream.Process` (assistant: usage high-water mark and tool-use count;
user: subagent tokens when `TotalTokens > 0`; result: cost;
anything else: no-op). -/
def processEvent (s : IterationStats) (e : Event) : IterationStats :=
  if e.type = "assistant" then
    match e.message with
    | none => s
    | some m =>
        let s1 := s.observeAssistant m.usage
        m.content.foldl
          (fun acc block => if block.type = "tool_use" then acc.observeToolUse else acc)
          s1
  else if e.type = "user" then
    match e.toolUseResult with
    | none => s
    | some tr => if 0 < tr.totalTokens then s.observeSubagent tr.totalTokens else s
  else if e.type = "result" then
    s.observeResult e.totalCostUSD
  else
    s

/-- Whether `Formatter.Format` fails on this event.  With an infallible
display writer the only failure is `formatTaskToolUse` unmarshalling a
Task block input that is not a JSON object (`json.Unmarshal` of a nil or
non-object raw message into `map[string]json.RawMessage` errors). -/
def formatFails (e : Event) : Bool :=
  e.type = "assistant" &&
    (match e.message with
     | some m =>
         m.content.any (fun b =>
           b.type = "tool_use" && b.name = "Task" &&
             (match b.input with | .obj _ => false | _ => true))
     | none => false)

/-- `stream.Process` over an already-parsed event list: fold each event
into the stats, then format it; a formatting error returns the stats
accumulated so far together with the error (second component `true`). -/
def processEvents : List Event → IterationStats → IterationStats × Bool
  | [], s => (s, false)
  | e :: rest, s =>
      let s1 := processEvent s e
      if formatFails e then (s1, true) else processEvents rest s1

/-- Fresh `IterationStats` accumulator (`stats := &IterationStats{}`). -/
def initialStats : IterationStats :=
  { peakContext := 0, cost := 0, subagentTokens := 0, toolCalls := 0 }

/-! ## internal/stream/parser.go -/

/-- One scanned line of the agent's output, as raw bytes. -/
abbrev ByteLine := List UInt8

/-- The scanner's maximum line length: `s.Buffer(make([]byte, 1024*1024),
1024*1024)`.  A line whose byte length reaches this bound cannot be
tokenised (the buffer fills without a newline) and `bufio` reports
`ErrTooLong`. -/
def maxLineLen : Nat := 1024 * 1024

/-- `Parser.Next` iterated to exhaustion: the list of events produced over
the whole stream and whether an error was surfaced.  `decode` stands for
`json.Unmarshal` of one line into an `Event` (`none` = malformed line,
silently skipped).  Blank lines are skipped; a line at or beyond the
scanner limit stops scanning and surfaces an error, after which no further
events are produced; an exhausted stream ends with `io.EOF`
(second component `false`). -/
def parserEvents (decode : ByteLine → Option Event) :
    List ByteLine → List Event × Bool
  | [] => ([], false)
  | l :: rest =>
      if maxLineLen ≤ l.length then ([], true)
      else if l.length = 0 then parserEvents decode rest
      else
        match decode l with
        | none => parserEvents decode rest
        | some e =>
            let (es, b) := parserEvents decode rest
            (e :: es, b)

/-! ## internal/loop: stale detector (part_012 lines 42-82) -/

/-- `loop.DefaultMaxStale`. -/
def DefaultMaxStale : Int := 2

/-- `loop.StaleDetector`: threshold, running count and last observed HEAD.
The zero value of `lastHead` (the empty string) doubles as the "unseeded"
sentinel, exactly as in the Go struct. -/
structure StaleDetector where
  maxStale : Int
  staleCount : Int
  lastHead : String
  deriving DecidableEq, Repr

/-- `loop.NewStaleDetector`: a non-positive threshold falls back to
`DefaultMaxStale`. -/
def NewStaleDetector (maxStale : Int) : StaleDetector :=
  { maxStale := if maxStale ≤ 0 then DefaultMaxStale else maxStale
    staleCount := 0
    lastHead := "" }

/-- `StaleDetector.Check`: returns ((abort, staleCount), updated detector).
First observation (empty `lastHead`) seeds the baseline; an unchanged HEAD
increments the count, a changed HEAD resets it; abort iff the new count
reaches `maxStale`. -/
def StaleDetector.check (d : StaleDetector) (currentHead : String) :
    (Bool × Int) × StaleDetector :=
  if d.lastHead = "" then
    ((false, 0), { d with lastHead := currentHead })
  else
    let cnt := if currentHead = d.lastHead then d.staleCount + 1 else 0
    ((d.maxStale ≤ cnt, cnt), { d with staleCount := cnt, lastHead := currentHead })

/-! ## internal/state (part_024): run records and the run-record store -/

/-- `state.RunStatus`. -/
inductive RunStatus where
  | completed
  | staleAbort
  | cancelled
  | maxIterations
  deriving DecidableEq, Repr

/-- `state.RunRecord` (start/finish timestamps omitted: no claim mentions
them; log file paths are represented by the iteration index that produced
them). -/
structure RunRecord where
  mode : String
  iterations : Int
  totalCost : Rat
  peakContext : Nat
  subagentTokens : Nat
  status : RunStatus
  logFiles : List Int
  deriving DecidableEq, Repr

/-! ## internal/loop: the iteration supervisor (part_012 lines 297-425)

`Run` is modelled as a deterministic function of an environment that fixes
what the external collaborators return:

* `heads j` is the value returned by the `j`-th call to `git.Head()`
  (calls are counted from 0: the seed call, then two calls per iteration);
  `git.Head()` error returns make `Run` exit before `saveState`, the same
  fatal path as an agent error, and are not modelled separately.
* `agent i` is the outcome of `runClaude` in iteration `i`: the (possibly
  nil) `*IterationStats` it returned and whether its error result was
  non-nil.  runClaude returns a non-nil error exactly on mid-invocation
  context cancellation (`ctx.Err() != nil`, returned together with the
  partial stats), a stream-processing error, or a non-zero agent exit.
* `cancelledAtBoundary i` is whether `ctx.Err() != nil` at the top-of-loop
  cancellation check of iteration `i`.

`git.Push`/`git.PushSetUpstream` results only affect rendered output,
never control flow or persisted state, and are omitted. -/

/-- Outcome of one `runClaude` invocation: the returned stats pointer and
whether the returned error was non-nil.  On mid-invocation cancellation
runClaude returns the partial stats it collected together with the non-nil
`ctx.Err()`. -/
structure AgentOutcome where
  stats : Option IterationStats
  err : Bool
  deriving DecidableEq, Repr

/-- The external collaborators of one loop run. -/
structure LoopEnv where
  heads : Nat → String
  agent : Int → AgentOutcome
  cancelledAtBoundary : Int → Bool

/-- `loop.Options`, restricted to the fields `Run`/`saveState` branch on. -/
structure RunOptions where
  mode : String
  maxIterations : Int
  stateFile : String
  deriving DecidableEq, Repr

/-- Mutable state threaded through the iteration loop. -/
structure LoopState where
  headCalls : Nat
  stale : StaleDetector
  cum : CumulativeStats
  logPaths : List Int
  invocations : Nat
  deriving DecidableEq, Repr

/-- How a run of the loop ended.  `fatal` is an error `return` out of
`Run` before the summary/`saveState` epilogue (agent error, including
mid-invocation cancellation).  `outOfFuel` is a model artefact: the Go
loop would keep iterating beyond the modelled bound. -/
inductive RunResult where
  | fatal
  | finished (cancelled staleAborted : Bool) (st : LoopState)
  | outOfFuel (st : LoopState)
  deriving DecidableEq, Repr

/-- One pass of the `for i := 1; ; i++` loop body of `Run`: either a
terminal outcome (`Sum.inl`) — iteration budget reached, cancellation
observed at the boundary, fatal agent error, or stale abort — or
(`Sum.inr`) the index and state for the next iteration.  The branch order
mirrors the source: iteration budget check, cancellation check, agent
invocation (the log path is recorded before the error check, as in the
source), fatal `return` on a non-nil agent error, stats folding for a
non-nil stats pointer, push attempt (display-only, omitted), then the
post-iteration HEAD comparison and stale check. -/
def loopStep (env : LoopEnv) (opts : RunOptions) (i : Int) (st : LoopState) :
    RunResult ⊕ (Int × LoopState) :=
  if 0 < opts.maxIterations ∧ opts.maxIterations < i then
    .inl (.finished false false st)
  else if env.cancelledAtBoundary i then
    .inl (.finished true false st)
  else
    let headBefore := env.heads st.headCalls
    let out := env.agent i
    let st1 : LoopState :=
      { st with
        headCalls := st.headCalls + 1
        invocations := st.invocations + 1
        logPaths := st.logPaths ++ [i] }
    if out.err then .inl .fatal
    else
      let st2 : LoopState :=
        match out.stats with
        | some s => { st1 with cum := st1.cum.update s }
        | none => st1
      let headAfter := env.heads st2.headCalls
      let st3 : LoopState := { st2 with headCalls := st2.headCalls + 1 }
      if headBefore = headAfter then
        let chk := st3.stale.check headAfter
        let st4 : LoopState := { st3 with stale := chk.2 }
        if chk.1.1 then .inl (.finished false true st4)
        else .inr (i + 1, st4)
      else
        let st4 : LoopState := { st3 with stale := (st3.stale.check headAfter).2 }
        .inr (i + 1, st4)

/-- The loop body iterated with explicit fuel (the Go loop is unbounded;
`outOfFuel` marks runs the modelled bound did not reach). -/
def loopIter (env : LoopEnv) (opts : RunOptions) :
    Nat → Int → LoopState → RunResult
  | 0, _, st => .outOfFuel st
  | fuel + 1, i, st =>
      match loopStep env opts i st with
      | .inl r => r
      | .inr (j, st4) => loopIter env opts fuel j st4

/-- Fresh cumulative stats (`cumStats := &stream.CumulativeStats{}`). -/
def initialCum : CumulativeStats :=
  { iterations := 0, peakContext := 0, subagentTokens := 0, totalCost := 0 }

/-- `loop.Run` up to (but not including) the summary/persistence epilogue:
seed the stale detector with the initial HEAD, then run the iteration
loop from `i = 1`. -/
def runLoop (env : LoopEnv) (opts : RunOptions) (fuel : Nat) : RunResult :=
  let seeded := ((NewStaleDetector DefaultMaxStale).check (env.heads 0)).2
  loopIter env opts fuel 1
    { headCalls := 1
      stale := seeded
      cum := initialCum
      logPaths := []
      invocations := 0 }

/-- The terminal status chosen by `saveState`'s `switch`: stale abort
beats cancellation beats a reached iteration budget; otherwise
`completed`. -/
def runStatusOf (opts : RunOptions) (cum : CumulativeStats)
    (cancelled staleAborted : Bool) : RunStatus :=
  if staleAborted then .staleAbort
  else if cancelled then .cancelled
  else if 0 < opts.maxIterations ∧ opts.maxIterations ≤ cum.iterations then .maxIterations
  else .completed

/-- The `state.RunRecord` literal built by `saveState`. -/
def mkRecord (opts : RunOptions) (cum : CumulativeStats) (logs : List Int)
    (cancelled staleAborted : Bool) : RunRecord :=
  { mode := opts.mode
    iterations := cum.iterations
    totalCost := cum.totalCost
    peakContext := cum.peakContext
    subagentTokens := cum.subagentTokens
    status := runStatusOf opts cum cancelled staleAborted
    logFiles := logs }

/-- `loop.saveState` acting on the persisted run history (`state.Load`,
append, `state.Save`): a no-op when no state file is configured, otherwise
exactly one record is appended.  `prev` is the history `state.Load`
returns (`state.Load` failures fall back to an empty history, i.e. an
empty `prev`). -/
def saveState (opts : RunOptions) (cum : CumulativeStats) (logs : List Int)
    (cancelled staleAborted : Bool) (prev : List RunRecord) : List RunRecord :=
  if opts.stateFile = "" then prev
  else prev ++ [mkRecord opts cum logs cancelled staleAborted]

/-- `loop.Run` including the persistence epilogue: the run history after
the run, given the history `prev` that `state.Load` would return at the
end of the run.  A fatal error `return` leaves the history untouched
(`saveState` is never reached); `none` means the modelled fuel ran out
(the Go loop would still be iterating). -/
def runStore (env : LoopEnv) (opts : RunOptions) (fuel : Nat)
    (prev : List RunRecord) : Option (List RunRecord) :=
  match runLoop env opts fuel with
  | .fatal => some prev
  | .finished c sa st => some (saveState opts st.cum st.logPaths c sa prev)
  | .outOfFuel _ => none

/-! ## Derived observations and spec-side comparison definitions -/

/-- The context size of a usage snapshot: input + cache-creation +
cache-read tokens. -/
def Usage.contextTokens (u : Usage) : Nat :=
  u.inputTokens + u.cacheCreationInputTokens + u.cacheReadInputTokens

/-- The context sizes reported by the assistant events of a stream, in
order (events of type `assistant` whose message carries a usage
snapshot). -/
def assistantContexts (events : List Event) : List Nat :=
  events.filterMap fun e =>
    if e.type = "assistant" then (e.message.bind Message.usage).map Usage.contextTokens
    else none

/-- Parameter extraction as the amended specification words it: the first
priority key that is present with a non-empty extracted string value wins;
if no priority key yields a non-empty value, fall back to the sorted key
names joined by commas; the result is truncated to 60 runes. -/
def extractParamSpec (kvs : List (String × JsonValue)) : String :=
  match paramPriority.findSome? (fun k =>
      match lookupKey kvs k with
      | some v => if jsonStringRaw v = "" then none else some (jsonStringRaw v)
      | none => none) with
  | some s => truncate s 60
  | none =>
      truncate (String.intercalate ", " ((kvs.map Prod.fst).mergeSort (fun a b => a ≤ b))) 60

/-- Number of agent invocations of a run that reached the loop epilogue
(`none` when the run ended with a fatal error or the modelled fuel ran
out). -/
def runInvocations (env : LoopEnv) (opts : RunOptions) (fuel : Nat) : Option Nat :=
  match runLoop env opts fuel with
  | .finished _ _ st => some st.invocations
  | _ => none

/-- The run record `saveState` builds for a run that reached the loop
epilogue. -/
def runRecordOf (env : LoopEnv) (opts : RunOptions) (fuel : Nat) : Option RunRecord :=
  match runLoop env opts fuel with
  | .finished c sa st => some (mkRecord opts st.cum st.logPaths c sa)
  | _ => none

/-! ## Concrete fixtures used by witnesses and counterexamples -/

/-- A decoded event fixture (valid line number one). -/
def evFix1 : Event := { type := "assistant", message := none, toolUseResult := none, totalCostUSD := 0 }

/-- A decoded event fixture (valid line number two). -/
def evFix2 : Event := { type := "user", message := none, toolUseResult := none, totalCostUSD := 0 }

/-- A concrete stand-in for `json.Unmarshal`: byte line `[49]` (`"1"`)
decodes to `evFix1`, `[50]` (`"2"`) to `evFix2`, everything else is
malformed. -/
def decodeFix : ByteLine → Option Event := fun l =>
  if l = [49] then some evFix1 else if l = [50] then some evFix2 else none

/-- A line at one byte over the scanner's one-mebibyte limit. -/
def bigLineFix : ByteLine := List.replicate (maxLineLen + 1) 0

/-- An assistant event whose only content block is a Task tool invocation
with a nil input raw message: `formatTaskToolUse` fails to unmarshal it,
so `Process` returns early. -/
def badTaskEv : Event :=
  { type := "assistant"
    message := some
      { model := "", role := "assistant"
        content := [{ type := "tool_use", text := "", id := "t1", name := "Task", input := .missing }]
        usage := none }
    toolUseResult := none
    totalCostUSD := 0 }

/-- An assistant event with usage {input 100, cache-creation 20, cache-read
5} (context 125) and no content. -/
def usageAssistantEv : Event :=
  { type := "assistant"
    message := some
      { model := "", role := "assistant", content := []
        usage := some { inputTokens := 100, outputTokens := 0
                        cacheCreationInputTokens := 20, cacheReadInputTokens := 5 } }
    toolUseResult := none
    totalCostUSD := 0 }

/-- A result event with total cost 0.05. -/
def resultEv : Event :=
  { type := "result", message := none, toolUseResult := none, totalCostUSD := 0.05 }

/-- Loop options fixture: build mode, unbounded budget, a configured state
file. -/
def optsUnboundedFix : RunOptions :=
  { mode := "build", maxIterations := 0, stateFile := "state.json" }

/-- Loop options fixture: build mode, budget of one iteration, a
configured state file. -/
def optsOneIterFix : RunOptions :=
  { mode := "build", maxIterations := 1, stateFile := "state.json" }

/-- A small iteration-stats fixture returned by the fake agent. -/
def statsFix : IterationStats :=
  { peakContext := 7, cost := 1, subagentTokens := 3, toolCalls := 2 }

/-- Environment fixture: the context is already cancelled at every
iteration boundary; the agent (never reached) would succeed. -/
def envBoundaryCancelFix : LoopEnv :=
  { heads := fun _ => "h"
    agent := fun _ => { stats := some statsFix, err := false }
    cancelledAtBoundary := fun _ => true }

/-- Environment fixture for mid-invocation cancellation: at iteration 1
the context is not yet cancelled at the boundary, but cancellation fires
while the agent runs, so `runClaude` returns its partial stats together
with the non-nil `ctx.Err()` (`err := true`). -/
def envMidCancelFix : LoopEnv :=
  { heads := fun _ => "h"
    agent := fun _ => { stats := some statsFix, err := true }
    cancelledAtBoundary := fun _ => false }

/-- Environment fixture: the repository revision never changes and every
agent invocation completes with stats. -/
def envStaleFix : LoopEnv :=
  { heads := fun _ => "a"
    agent := fun _ => { stats := some statsFix, err := false }
    cancelledAtBoundary := fun _ => false }

/-- Environment fixture: the repository revision differs on every HEAD
read and every agent invocation completes with stats. -/
def envAltHeadsFix : LoopEnv :=
  { heads := fun j => if j % 2 = 0 then "a" else "b"
    agent := fun _ => { stats := some statsFix, err := false }
    cancelledAtBoundary := fun _ => false }

/-! ## Theorems -/

/-- C3, claim as stated, refuted: on a detector seeded with the empty
string, a second check of the same (empty) revision does not increment the
stale count — the code returns count 0 where the claim's transition
function requires count 1, because the empty string is the detector's
internal "unseeded" sentinel (`if d.lastHead == ""`). -/
theorem c3_counterexample :
    (((NewStaleDetector 2).check "").2.check "").1 = (false, 0) ∧
    ((false, 0) : Bool × Int) ≠ (false, 1) := by
  decide

/-- C3 amended: `StaleDetector.Check` implements the claimed transition
function for every revision string on the first call, and for later calls
whenever the recorded baseline is a nonempty string (the empty string is
the internal unseeded sentinel, so a detector whose baseline is empty
behaves as unseeded again).  The positivity hypothesis on `maxStale` holds
for every detector built by `NewStaleDetector`.  The final three conjuncts
are the spec's threshold scenario with `max_stale = 2`. -/
theorem c3_stale_detector_transitions (d : StaleDetector) (r : String)
    (hm : 0 < d.maxStale) :
    (d.lastHead = "" → d.check r = ((false, 0), { d with lastHead := r })) ∧
    (d.lastHead ≠ "" → r = d.lastHead →
      d.check r = ((decide (d.maxStale ≤ d.staleCount + 1), d.staleCount + 1),
        { d with staleCount := d.staleCount + 1, lastHead := r })) ∧
    (d.lastHead ≠ "" → r ≠ d.lastHead →
      d.check r = ((false, 0), { d with staleCount := 0, lastHead := r })) ∧
    (NewStaleDetector 2).check "a" =
      ((false, 0), { maxStale := 2, staleCount := 0, lastHead := "a" }) ∧
    ((NewStaleDetector 2).check "a").2.check "a" =
      ((false, 1), { maxStale := 2, staleCount := 1, lastHead := "a" }) ∧
    (((NewStaleDetector 2).check "a").2.check "a").2.check "a" =
      ((true, 2), { maxStale := 2, staleCount := 2, lastHead := "a" }) := by
  refine ⟨?_, ?_, ?_, by decide, by decide, by decide⟩
  · intro h
    simp [StaleDetector.check, h]
  · intro h hr
    simp [StaleDetector.check, h, hr]
  · intro h hr
    simp only [StaleDetector.check, if_neg h, if_neg hr]
    have : ¬ d.maxStale ≤ 0 := by omega
    simp [this]

/-- Witness for C3's amended theorem: a seeded detector with nonempty
baseline `"x"` and `max_stale = 2`, checked with the unchanged revision,
increments the count to 1 without aborting. -/
theorem c3_stale_detector_transitions_witness :
    StaleDetector.check { maxStale := 2, staleCount := 0, lastHead := "x" } "x" =
      ((false, 1), { maxStale := 2, staleCount := 1, lastHead := "x" }) := by
  have h := (c3_stale_detector_transitions
    { maxStale := 2, staleCount := 0, lastHead := "x" } "x" (by decide)).2.1
    (by decide) rfl
  simpa using h

/-- C5: `FormatTokens` renders values under 1,000 as the plain integer,
values in [1,000, 1,000,000) as thousands with one decimal digit and a
"k" suffix, and values from 1,000,000 as millions with one decimal digit
and an "M" suffix; the inequalities pin the rendered digits to the floor
of the true value (truncation toward zero, not rounding), and the five
concrete values are the spec's examples. -/
theorem c5_format_tokens_floor (n : Nat) :
    (n < 1000 → FormatTokens n = toString n) ∧
    (1000 ≤ n → n < 1000000 →
      FormatTokens n = toString (n / 1000) ++ "." ++ toString (n / 100 % 10) ++ "k" ∧
      (n / 1000) * 1000 + (n / 100 % 10) * 100 ≤ n ∧
      n < (n / 1000) * 1000 + (n / 100 % 10 + 1) * 100) ∧
    (1000000 ≤ n →
      FormatTokens n = toString (n / 1000000) ++ "." ++ toString (n / 100000 % 10) ++ "M" ∧
      (n / 1000000) * 1000000 + (n / 100000 % 10) * 100000 ≤ n ∧
      n < (n / 1000000) * 1000000 + (n / 100000 % 10 + 1) * 100000) ∧
    FormatTokens 45399 = "45.3k" ∧ FormatTokens 45400 = "45.4k" ∧
    FormatTokens 999 = "999" ∧ FormatTokens 1000 = "1.0k" ∧
    FormatTokens 1000000 = "1.0M" := by
  refine ⟨?_, ?_, ?_, by decide, by decide, by decide, by decide, by decide⟩
  · intro h
    have h1 : ¬ 1000000 ≤ n := by omega
    have h2 : ¬ 1000 ≤ n := by omega
    simp [FormatTokens, h1, h2]
  · intro h1 h2
    have hm : ¬ 1000000 ≤ n := by omega
    refine ⟨?_, by omega, by omega⟩
    simp only [FormatTokens, if_neg hm, if_pos h1]
    have : n / 100 / 10 = n / 1000 := by
      rw [Nat.div_div_eq_div_mul]
    rw [this]
  · intro h1
    refine ⟨?_, by omega, by omega⟩
    simp only [FormatTokens, if_pos h1]
    have : n / 100000 / 10 = n / 1000000 := by
      rw [Nat.div_div_eq_div_mul]
    rw [this]

/-- Witness for C5: the middle branch applied at 45399 — the rendered
decimal digit is the floored one. -/
theorem c5_format_tokens_floor_witness :
    FormatTokens 45399 =
      toString (45399 / 1000) ++ "." ++ toString (45399 / 100 % 10) ++ "k" :=
  ((c5_format_tokens_floor 45399).2.1 (by omega) (by omega)).1

/-- C7: `CumulativeStats.Update` increments the iteration count, takes the
maximum (not the sum) of the peak contexts, and adds subagent tokens and
cost to the running sums; the concrete conjunct is the spec's
two-iteration aggregation scenario (peaks {100, 50}, subagent tokens
{10, 20}, costs {1.0, 2.5}). -/
theorem c7_cumulative_update (c : CumulativeStats) (iter : IterationStats) :
    c.update iter =
      { iterations := c.iterations + 1
        peakContext := max c.peakContext iter.peakContext
        subagentTokens := c.subagentTokens + iter.subagentTokens
        totalCost := c.totalCost + iter.cost } ∧
    (initialCum.update
        { peakContext := 100, cost := 1, subagentTokens := 10, toolCalls := 0 }).update
        { peakContext := 50, cost := 2.5, subagentTokens := 20, toolCalls := 0 } =
      { iterations := 2, peakContext := 100, subagentTokens := 30, totalCost := 3.5 } := by
  constructor
  · have hmax : (if c.peakContext < iter.peakContext then iter.peakContext
        else c.peakContext) = max c.peakContext iter.peakContext := by
      split <;> omega
    simp [CumulativeStats.update, hmax]
  · simp only [CumulativeStats.update, initialCum, CumulativeStats.mk.injEq]
    norm_num

/-- C8, claim as stated, refuted: for the input object
`{"file_path": "", "command": "ls"}` the first present priority key is
`file_path`, whose string value is `""`, so the claim predicts the result
`""`; the code instead skips a priority key whose extracted string is
empty (`if s != ""` in `extractParam`) and returns `"ls"`. -/
theorem c8_counterexample :
    extractParam (.obj [("file_path", .str ""), ("command", .str "ls")]) = "ls" ∧
    "ls" ≠ truncate "" 60 := by
  decide

/-- C8 amended: the extracted representative parameter is the string value
of the first priority key (order file_path, description, command, pattern,
query, url, skill) that is present with a non-empty extracted string value
(non-string values contribute their raw text, trimmed); if no priority key
yields a non-empty value — in particular also when priority keys are
present but their values are empty strings — the result falls back to the
sorted key names joined by commas; in all cases the result is truncated to
60 characters with an ellipsis appended when longer, counting runes so
that multi-byte characters are never split. -/
theorem c8_extract_param (kvs : List (String × JsonValue)) (s : String) :
    extractParam (.obj kvs) = extractParamSpec kvs ∧
    extractParam .missing = "" ∧
    extractParam .notObject = "" ∧
    (s.toList.length ≤ 60 → truncate s 60 = s) ∧
    (60 < s.toList.length → truncate s 60 = String.mk (s.toList.take 60) ++ "…") ∧
    (truncate s 60).toList.length ≤ 61 := by
  refine ⟨rfl, rfl, rfl, ?_, ?_, ?_⟩
  · intro h
    have hc : ¬ 60 < s.toList.length := by omega
    simp only [truncate]
    rw [if_neg hc]
  · intro h
    simp only [truncate]
    rw [if_pos h]
  · by_cases h : 60 < s.toList.length
    · simp only [truncate]
      rw [if_pos h]
      have hlen : (String.mk (s.toList.take 60) ++ "…").toList.length =
          (s.toList.take 60).length + 1 := by
        show ((s.toList.take 60) ++ "…".toList).length = _
        simp
      rw [hlen, List.length_take]
      omega
    · simp only [truncate]
      rw [if_neg h]
      omega

/-- Witness for C8's amended theorem: a short string passes through
`truncate` unchanged. -/
theorem c8_extract_param_witness : truncate "abc" 60 = "abc" :=
  (c8_extract_param [] "abc").2.2.2.1 (by decide)

/-- C4: over any stream whose lines all fit the scanner's buffer, the
parser yields exactly one event per non-blank line that decodes
successfully (in order), silently skipping blank lines and lines that
fail to decode, and terminates with end-of-stream (no error) once the
lines are exhausted. -/
theorem c4_parser_tolerance (decode : ByteLine → Option Event)
    (lines : List ByteLine) (h : ∀ l ∈ lines, l.length < maxLineLen) :
    parserEvents decode lines =
      ((lines.filter (fun l => l.length != 0)).filterMap decode, false) := by
  induction lines with
  | nil => rfl
  | cons l rest ih =>
      have hl : l.length < maxLineLen := h l (by simp)
      have hrest : ∀ l' ∈ rest, l'.length < maxLineLen := by
        intro l' hl'
        exact h l' (by simp [hl'])
      have hnot : ¬ maxLineLen ≤ l.length := by omega
      have hml : ¬ maxLineLen = 0 := by omega
      by_cases hz : l.length = 0
      · simp [parserEvents, hnot, hz, hml, ih hrest]
      · cases hdec : decode l with
        | none => simp [parserEvents, hnot, hz, hdec, ih hrest]
        | some e => simp [parserEvents, hnot, hz, hdec, ih hrest]

/-- Witness for C4: the spec's malformed-line-tolerance scenario — one
invalid line, one blank line, two valid lines — yields exactly the two
decoded events and no error. -/
theorem c4_parser_tolerance_witness :
    parserEvents decodeFix [[48], [], [49], [50]] = ([evFix1, evFix2], false) := by
  rw [c4_parser_tolerance decodeFix [[48], [], [49], [50]] (by decide)]
  decide

/-- C10: a line at least as long as the scanner's one-mebibyte buffer (in
particular any line strictly longer than one mebibyte) makes the scanner
fail; `Parser.Next` surfaces the failure as an error exactly like a
transport-level I/O error, the events of the preceding lines are still
produced, and no events at all are produced from the rest of the stream
after the error. -/
theorem c10_overlong_line (decode : ByteLine → Option Event)
    (pre post : List ByteLine) (big : ByteLine)
    (hpre : ∀ l ∈ pre, l.length < maxLineLen) (hbig : maxLineLen < big.length) :
    parserEvents decode (pre ++ big :: post) =
      ((pre.filter (fun l => l.length != 0)).filterMap decode, true) := by
  induction pre with
  | nil =>
      have : maxLineLen ≤ big.length := by omega
      simp [parserEvents, this]
  | cons l rest ih =>
      have hl : l.length < maxLineLen := hpre l (by simp)
      have hrest : ∀ l' ∈ rest, l'.length < maxLineLen := by
        intro l' hl'
        exact hpre l' (by simp [hl'])
      have hnot : ¬ maxLineLen ≤ l.length := by omega
      have hml : ¬ maxLineLen = 0 := by omega
      by_cases hz : l.length = 0
      · simp [parserEvents, hnot, hz, hml, ih hrest]
      · cases hdec : decode l with
        | none => simp [parserEvents, hnot, hz, hdec, ih hrest]
        | some e => simp [parserEvents, hnot, hz, hdec, ih hrest]

/-- Witness for C10: a stream with one short valid line, then a line one
byte over the limit, then another valid line, yields only the first event
and a surfaced error. -/
theorem c10_overlong_line_witness :
    parserEvents decodeFix ([[49]] ++ bigLineFix :: [[50]]) = ([evFix1], true) := by
  rw [c10_overlong_line decodeFix [[49]] [[50]] bigLineFix (by decide)
    (by simp only [bigLineFix, List.length_replicate]; omega)]
  decide

/-- The per-block tool-use counting fold inside `Process` touches only
`toolCalls`: peak context, cost and subagent tokens pass through. -/
theorem toolUseFold_preserves (blocks : List ContentBlock) (s : IterationStats) :
    (blocks.foldl
        (fun acc b => if b.type = "tool_use" then acc.observeToolUse else acc) s).peakContext
        = s.peakContext ∧
    (blocks.foldl
        (fun acc b => if b.type = "tool_use" then acc.observeToolUse else acc) s).cost
        = s.cost ∧
    (blocks.foldl
        (fun acc b => if b.type = "tool_use" then acc.observeToolUse else acc) s).subagentTokens
        = s.subagentTokens := by
  induction blocks generalizing s with
  | nil => exact ⟨rfl, rfl, rfl⟩
  | cons b rest ih =>
      have h := ih (if b.type = "tool_use" then s.observeToolUse else s)
      refine ⟨?_, ?_, ?_⟩
      · simp only [List.foldl_cons]
        rw [h.1]
        split <;> rfl
      · simp only [List.foldl_cons]
        rw [h.2.1]
        split <;> rfl
      · simp only [List.foldl_cons]
        rw [h.2.2]
        split <;> rfl

/-- `ObserveAssistant` leaves cost and subagent tokens unchanged and
applies the high-water rule to the peak context. -/
theorem observeAssistant_fields (s : IterationStats) (u : Option Usage) :
    (s.observeAssistant u).cost = s.cost ∧
    (s.observeAssistant u).subagentTokens = s.subagentTokens ∧
    (s.observeAssistant u).peakContext =
      (match u with
       | some v => max s.peakContext v.contextTokens
       | none => s.peakContext) := by
  cases u with
  | none => exact ⟨rfl, rfl, rfl⟩
  | some v =>
      refine ⟨?_, ?_, ?_⟩
      · simp only [IterationStats.observeAssistant]
        split <;> rfl
      · simp only [IterationStats.observeAssistant]
        split <;> rfl
      · simp only [IterationStats.observeAssistant, Usage.contextTokens]
        split
        · rename_i hc
          show v.inputTokens + v.cacheCreationInputTokens + v.cacheReadInputTokens =
            max s.peakContext (v.inputTokens + v.cacheCreationInputTokens + v.cacheReadInputTokens)
          omega
        · rename_i hc
          show s.peakContext =
            max s.peakContext (v.inputTokens + v.cacheCreationInputTokens + v.cacheReadInputTokens)
          omega

/-- Folding one event changes the peak context exactly by the high-water
rule applied to the assistant usage context (if any). -/
theorem processEvent_peak (s : IterationStats) (e : Event) :
    (processEvent s e).peakContext =
      match (if e.type = "assistant"
          then (e.message.bind Message.usage).map Usage.contextTokens else none) with
      | some ctx => max s.peakContext ctx
      | none => s.peakContext := by
  obtain ⟨ty, msg, tur, tc⟩ := e
  simp only [processEvent]
  by_cases ha : ty = "assistant"
  · rw [if_pos ha, if_pos ha]
    cases msg with
    | none => rfl
    | some m =>
        rw [(toolUseFold_preserves m.content (s.observeAssistant m.usage)).1,
          (observeAssistant_fields s m.usage).2.2]
        cases hmu : m.usage with
        | none => simp [hmu]
        | some v => simp [hmu]
  · rw [if_neg ha, if_neg ha]
    by_cases hu : ty = "user"
    · rw [if_pos hu]
      cases tur with
      | none => rfl
      | some tr =>
          show (if 0 < tr.totalTokens then s.observeSubagent tr.totalTokens else s).peakContext
            = s.peakContext
          split <;> rfl
    · rw [if_neg hu]
      by_cases hr : ty = "result"
      · rw [if_pos hr]
        show s.peakContext = s.peakContext
        rfl
      · rw [if_neg hr]

/-- Head normal form of `assistantContexts`. -/
theorem assistantContexts_cons (e : Event) (rest : List Event) :
    assistantContexts (e :: rest) =
      match (if e.type = "assistant"
          then (e.message.bind Message.usage).map Usage.contextTokens else none) with
      | some ctx => ctx :: assistantContexts rest
      | none => assistantContexts rest := by
  cases hsel : (if e.type = "assistant"
      then (e.message.bind Message.usage).map Usage.contextTokens else none) with
  | none =>
      simp only [assistantContexts, List.filterMap_cons]
      rw [hsel]
  | some ctx =>
      simp only [assistantContexts, List.filterMap_cons]
      rw [hsel]

/-- When no event makes the formatter fail, `Process` consumes the whole
stream and its peak context is the fold of the high-water rule over all
assistant usage contexts. -/
theorem processEvents_peak (events : List Event) :
    ∀ s : IterationStats, (∀ e ∈ events, formatFails e = false) →
      ((processEvents events s).1).peakContext =
        (assistantContexts events).foldl max s.peakContext := by
  induction events with
  | nil => intro s _; rfl
  | cons e rest ih =>
      intro s h
      have he : formatFails e = false := h e (by simp)
      have hrest : ∀ e' ∈ rest, formatFails e' = false := fun e' h' => h e' (by simp [h'])
      simp only [processEvents, he, Bool.false_eq_true, if_false]
      rw [ih (processEvent s e) hrest, assistantContexts_cons]
      have hp := processEvent_peak s e
      cases hsel : (if e.type = "assistant"
          then (e.message.bind Message.usage).map Usage.contextTokens else none) with
      | none => rw [hsel] at hp; simp only [hp]
      | some ctx => rw [hsel] at hp; simp only [hp, List.foldl_cons]

/-- Folding a non-result event never changes the recorded cost. -/
theorem processEvent_cost (s : IterationStats) (e : Event) (h : e.type ≠ "result") :
    (processEvent s e).cost = s.cost := by
  obtain ⟨ty, msg, tur, tc⟩ := e
  have h' : ty ≠ "result" := h
  simp only [processEvent]
  by_cases ha : ty = "assistant"
  · rw [if_pos ha]
    cases msg with
    | none => rfl
    | some m =>
        rw [(toolUseFold_preserves m.content (s.observeAssistant m.usage)).2.1,
          (observeAssistant_fields s m.usage).1]
  · rw [if_neg ha]
    by_cases hu : ty = "user"
    · rw [if_pos hu]
      cases tur with
      | none => rfl
      | some tr =>
          show (if 0 < tr.totalTokens then s.observeSubagent tr.totalTokens else s).cost = s.cost
          split <;> rfl
    · rw [if_neg hu, if_neg h']

/-- A stream with no result events leaves the cost untouched (even when a
formatter error truncates processing). -/
theorem processEvents_cost_no_result (events : List Event) :
    ∀ s : IterationStats, (∀ e ∈ events, e.type ≠ "result") →
      ((processEvents events s).1).cost = s.cost := by
  induction events with
  | nil => intro s _; rfl
  | cons e rest ih =>
      intro s h
      have he : e.type ≠ "result" := h e (by simp)
      have hrest : ∀ e' ∈ rest, e'.type ≠ "result" := fun e' h' => h e' (by simp [h'])
      simp only [processEvents]
      split
      · exact processEvent_cost s e he
      · rw [ih (processEvent s e) hrest, processEvent_cost s e he]

/-- When every event of the prefix before the result event renders without
error and no event after it is a result event, the recorded cost is the
result event's reported value. -/
theorem processEvents_cost_single (a : List Event) (r : Event) (b : List Event) :
    ∀ s : IterationStats, (∀ e ∈ a, formatFails e = false) → r.type = "result" →
      (∀ e ∈ b, e.type ≠ "result") →
      ((processEvents (a ++ r :: b) s).1).cost = r.totalCostUSD := by
  induction a with
  | nil =>
      intro s _ hr hb
      have hfmt : formatFails r = false := by
        simp [formatFails, hr]
      simp only [List.nil_append, processEvents, hfmt, Bool.false_eq_true, if_false]
      rw [processEvents_cost_no_result b _ hb]
      obtain ⟨ty, msg, tur, tc⟩ := r
      have hr' : ty = "result" := hr
      subst hr'
      simp [processEvent, IterationStats.observeResult]
  | cons e a ih =>
      intro s h hr hb
      have he : formatFails e = false := h e (by simp)
      have ha : ∀ e' ∈ a, formatFails e' = false := fun e' h' => h e' (by simp [h'])
      simp only [List.cons_append, processEvents, he, Bool.false_eq_true, if_false]
      exact ih (processEvent s e) ha hr hb

/-- When no event makes the formatter fail, `Process` reaches end of
stream without surfacing an error. -/
theorem processEvents_ok (events : List Event) :
    ∀ s : IterationStats, (∀ e ∈ events, formatFails e = false) →
      (processEvents events s).2 = false := by
  induction events with
  | nil => intro s _; rfl
  | cons e rest ih =>
      intro s h
      have he : formatFails e = false := h e (by simp)
      have hrest : ∀ e' ∈ rest, formatFails e' = false := fun e' h' => h e' (by simp [h'])
      simp only [processEvents, he, Bool.false_eq_true, if_false]
      exact ih (processEvent s e) hrest

/-- C6, claim as stated, refuted: an assistant event whose Task
tool-invocation block has a nil input raw message makes the renderer fail,
so `Process` returns early; a later assistant event with usage context 125
is never folded and the resulting peak context is 0, not the maximum 125
over all assistant events of the sequence. -/
theorem c6_counterexample :
    (processEvents [badTaskEv, usageAssistantEv] initialStats).1.peakContext = 0 ∧
    (assistantContexts [badTaskEv, usageAssistantEv]).foldl max 0 = 125 ∧
    (0 : Nat) ≠ 125 := by
  refine ⟨?_, ?_, by decide⟩
  · simp [processEvents, processEvent, formatFails, badTaskEv, usageAssistantEv,
      initialStats, IterationStats.observeAssistant, IterationStats.observeToolUse]
  · simp [assistantContexts, badTaskEv, usageAssistantEv, Usage.contextTokens]

/-- C6 amended: provided every Task tool-invocation block of the sequence
carries a JSON-object input (so no rendering error interrupts `Process`),
the resulting peak context is the high-water mark (maximum, not sum) of
input+cache-creation+cache-read over all assistant events with a usage
snapshot, no error is surfaced, and the recorded cost is the value of the
unique result event; the two closed conjuncts are the spec's end-to-end
scenario: one assistant event with usage {input 100, cache-creation 20,
cache-read 5} and a result event with cost 0.05 give stats
{peak 125, cost 0.05}, which fold into a zero cumulative state as
{iterations 1, peak 125, subagent 0, cost 0.05}. -/
theorem c6_stream_processor_stats (events : List Event)
    (hok : ∀ e ∈ events, formatFails e = false) :
    ((processEvents events initialStats).1.peakContext =
        (assistantContexts events).foldl max 0 ∧
      (processEvents events initialStats).2 = false) ∧
    (∀ a r b, events = a ++ r :: b → r.type = "result" →
      (∀ e ∈ b, e.type ≠ "result") →
      (processEvents events initialStats).1.cost = r.totalCostUSD) ∧
    processEvents [usageAssistantEv, resultEv] initialStats =
      ({ peakContext := 125, cost := 0.05, subagentTokens := 0, toolCalls := 0 }, false) ∧
    initialCum.update
        { peakContext := 125, cost := 0.05, subagentTokens := 0, toolCalls := 0 } =
      { iterations := 1, peakContext := 125, subagentTokens := 0, totalCost := 0.05 } := by
  refine ⟨⟨processEvents_peak events initialStats hok, processEvents_ok events initialStats hok⟩,
    ?_, ?_, ?_⟩
  · intro a r b hsplit hr hb
    subst hsplit
    refine processEvents_cost_single a r b initialStats ?_ hr hb
    intro e he
    exact hok e (by simp [he])
  · simp [processEvents, processEvent, formatFails, usageAssistantEv, resultEv,
      initialStats, IterationStats.observeAssistant, IterationStats.observeResult,
      Usage.contextTokens]
  · simp only [CumulativeStats.update, initialCum, CumulativeStats.mk.injEq]
    norm_num

/-- Witness for C6's amended theorem applied to the spec's end-to-end
scenario stream. -/
theorem c6_stream_processor_stats_witness :
    (processEvents [usageAssistantEv, resultEv] initialStats).1.peakContext =
      (assistantContexts [usageAssistantEv, resultEv]).foldl max 0 ∧
    (processEvents [usageAssistantEv, resultEv] initialStats).1.cost =
      resultEv.totalCostUSD :=
  ⟨(c6_stream_processor_stats [usageAssistantEv, resultEv] (by decide)).1.1,
    (c6_stream_processor_stats [usageAssistantEv, resultEv] (by decide)).2.1
      [usageAssistantEv] resultEv [] rfl rfl (by simp)⟩

/-- Characterisation of a terminal `finished` outcome of one loop pass:
it is the budget stop (cancelled = staleAborted = false, state unchanged,
budget positive and exceeded), the boundary-cancellation stop
(cancelled = true, staleAborted = false, state unchanged), or the stale
abort (cancelled = false, staleAborted = true). -/
theorem loopStep_inl_finished (env : LoopEnv) (opts : RunOptions) (i : Int)
    (st : LoopState) (c sa : Bool) (st4 : LoopState)
    (h : loopStep env opts i st = .inl (.finished c sa st4)) :
    (c = false ∧ sa = false ∧ st4 = st ∧
      0 < opts.maxIterations ∧ opts.maxIterations < i) ∨
    (c = true ∧ sa = false ∧ st4 = st ∧ env.cancelledAtBoundary i = true) ∨
    (c = false ∧ sa = true ∧ (env.agent i).err = false) := by
  simp only [loopStep] at h
  split_ifs at h with h1 h2 h3 h4 h5
  · injection h with h'
    injection h' with hc hsa hst
    exact Or.inl ⟨hc.symm, hsa.symm, hst.symm, h1.1, h1.2⟩
  · injection h with h'
    injection h' with hc hsa hst
    exact Or.inr (Or.inl ⟨hc.symm, hsa.symm, hst.symm, h2⟩)
  · injection h with h'
    cases h'
  · injection h with h'
    injection h' with hc hsa hst
    exact Or.inr (Or.inr ⟨hc.symm, hsa.symm, by simpa using h3⟩)

/-- Characterisation of a continuing loop pass: the index advances by one,
the agent invocation succeeded, the invocation counter grows by exactly
one, and the cumulative stats are updated with the returned stats
(unchanged for a nil stats pointer). -/
theorem loopStep_inr (env : LoopEnv) (opts : RunOptions) (i : Int)
    (st : LoopState) (j : Int) (st4 : LoopState)
    (h : loopStep env opts i st = .inr (j, st4)) :
    j = i + 1 ∧ (env.agent i).err = false ∧
    st4.invocations = st.invocations + 1 ∧
    ((env.agent i).stats = none → st4.cum = st.cum) ∧
    (∀ s, (env.agent i).stats = some s → st4.cum = st.cum.update s) := by
  simp only [loopStep] at h
  split_ifs at h with h1 h2 h3 h4 h5
  · injection h with h'
    injection h' with hj hst
    subst hj
    subst hst
    refine ⟨rfl, by simpa using h3, ?_, ?_, ?_⟩
    · cases hs : (env.agent i).stats with
      | none => simp [hs]
      | some s => simp [hs]
    · intro hnone
      simp [hnone]
    · intro s hsome
      simp [hsome]
  · injection h with h'
    injection h' with hj hst
    subst hj
    subst hst
    refine ⟨rfl, by simpa using h3, ?_, ?_, ?_⟩
    · cases hs : (env.agent i).stats with
      | none => simp [hs]
      | some s => simp [hs]
    · intro hnone
      simp [hnone]
    · intro s hsome
      simp [hsome]

/-- More fuel never changes a run that already reached a terminal
outcome. -/
theorem loopIter_fuel_mono (env : LoopEnv) (opts : RunOptions) (fuel : Nat) :
    ∀ fuel' (i : Int) (st : LoopState) (c sa : Bool) (st' : LoopState),
      fuel ≤ fuel' →
      loopIter env opts fuel i st = .finished c sa st' →
      loopIter env opts fuel' i st = .finished c sa st' := by
  induction fuel with
  | zero =>
      intro fuel' i st c sa st' _ h
      simp [loopIter] at h
  | succ n ih =>
      intro fuel' i st c sa st' hle h
      obtain ⟨m, rfl⟩ : ∃ m, fuel' = m + 1 := ⟨fuel' - 1, by omega⟩
      simp only [loopIter] at h ⊢
      cases hs : loopStep env opts i st with
      | inl r =>
          rw [hs] at h
          exact h
      | inr p =>
          obtain ⟨j, st4⟩ := p
          rw [hs] at h
          exact ih m j st4 c sa st' (by omega) h

/-- Core invariant: starting from a state whose cumulative iteration count
is `i - 1`, a run in which every successful agent invocation returned
non-nil stats never reaches the loop epilogue with a state/flag
combination that would select status `completed` — the budget stop implies
the recorded iteration count has reached the budget. -/
theorem loopIter_never_completed (env : LoopEnv) (opts : RunOptions)
    (H : ∀ i, (env.agent i).err = false → (env.agent i).stats ≠ none) (fuel : Nat) :
    ∀ (i : Int) (st : LoopState) (c sa : Bool) (st' : LoopState),
      st.cum.iterations = i - 1 →
      loopIter env opts fuel i st = .finished c sa st' →
      runStatusOf opts st'.cum c sa ≠ .completed := by
  induction fuel with
  | zero =>
      intro i st c sa st' _ h
      simp [loopIter] at h
  | succ n ih =>
      intro i st c sa st' hinv h
      simp only [loopIter] at h
      cases hs : loopStep env opts i st with
      | inl r =>
          rw [hs] at h
          have h' : r = .finished c sa st' := h
          subst h'
          rcases loopStep_inl_finished env opts i st c sa st' hs with
            ⟨hc, hsa, hst, hpos, hlt⟩ | ⟨hc, hsa, hst, _⟩ | ⟨hc, hsa, _⟩
          · subst hc
            subst hsa
            subst hst
            simp only [runStatusOf, Bool.false_eq_true, if_false]
            rw [if_pos ⟨hpos, by omega⟩]
            simp
          · subst hc; subst hsa
            simp [runStatusOf]
          · subst hc; subst hsa
            simp [runStatusOf]
      | inr p =>
          obtain ⟨j, st4⟩ := p
          rw [hs] at h
          obtain ⟨hj, herr, _, _, hsome⟩ := loopStep_inr env opts i st j st4 hs
          cases hstats : (env.agent i).stats with
          | none => exact absurd hstats (H i herr)
          | some s =>
              refine ih j st4 c sa st' ?_ h
              rw [hsome s hstats, hj]
              simp only [CumulativeStats.update]
              omega

/-- C9: in every terminating loop execution whose successful agent
invocations all return non-nil iteration stats, the RunRecord built by
`saveState` carries status `max_iterations`, `cancelled` or `stale_abort`
— never `completed` — and it is exactly the record the persistence step
appends.  (A fatal error path never reaches persistence at all.) -/
theorem c9_never_persists_completed (env : LoopEnv) (opts : RunOptions)
    (fuel : Nat) (prev : List RunRecord) (c sa : Bool) (st : LoopState)
    (H : ∀ i, (env.agent i).err = false → (env.agent i).stats ≠ none)
    (hrun : runLoop env opts fuel = .finished c sa st) :
    (mkRecord opts st.cum st.logPaths c sa).status ≠ RunStatus.completed ∧
    ((mkRecord opts st.cum st.logPaths c sa).status = RunStatus.maxIterations ∨
      (mkRecord opts st.cum st.logPaths c sa).status = RunStatus.cancelled ∨
      (mkRecord opts st.cum st.logPaths c sa).status = RunStatus.staleAbort) ∧
    runStore env opts fuel prev =
      some (saveState opts st.cum st.logPaths c sa prev) := by
  have hne : runStatusOf opts st.cum c sa ≠ .completed :=
    loopIter_never_completed env opts H fuel 1 _ c sa st (by norm_num [initialCum]) hrun
  have hproj : (mkRecord opts st.cum st.logPaths c sa).status =
      runStatusOf opts st.cum c sa := rfl
  refine ⟨by rw [hproj]; exact hne, ?_, ?_⟩
  · simp only [hproj]
    rcases hstat : runStatusOf opts st.cum c sa
    · exact absurd hstat hne
    · exact Or.inr (Or.inr rfl)
    · exact Or.inr (Or.inl rfl)
    · exact Or.inl rfl
  · simp [runStore, hrun]

/-- Computation of the budget-one scenario at fuel 2: with
`MaxIterations = 1`, no cancellation, successful agent invocations, and a
revision that changes across the iteration, the loop stops at the budget
check of iteration 2 having invoked the agent exactly once. -/
theorem runLoop_budget_one (env : LoopEnv) (opts : RunOptions)
    (stats : Int → IterationStats)
    (h1 : opts.maxIterations = 1)
    (h3 : ∀ i, env.agent i = ⟨some (stats i), false⟩)
    (h4 : ∀ i, env.cancelledAtBoundary i = false)
    (h5 : env.heads 1 ≠ env.heads 2) :
    runLoop env opts 2 = .finished false false
      { headCalls := 3
        stale := (((NewStaleDetector DefaultMaxStale).check (env.heads 0)).2.check
          (env.heads 2)).2
        cum := initialCum.update (stats 1)
        logPaths := [1]
        invocations := 1 } := by
  simp [runLoop, loopIter, loopStep, h1, h3, h4, h5]

/-- Computation of the never-changing-revision scenario at fuel 2: with an
unbounded budget, no cancellation, successful agent invocations and a
constant nonempty revision, the loop stale-aborts at the end of iteration
`DefaultMaxStale = 2` having invoked the agent exactly twice. -/
theorem runLoop_stale_two (env : LoopEnv) (opts : RunOptions)
    (stats : Int → IterationStats) (r : String)
    (h1 : opts.maxIterations = 0) (hr : r ≠ "")
    (h3 : ∀ i, env.agent i = ⟨some (stats i), false⟩)
    (h4 : ∀ i, env.cancelledAtBoundary i = false)
    (h6 : ∀ j, env.heads j = r) :
    runLoop env opts 2 = .finished false true
      { headCalls := 5
        stale := { maxStale := 2, staleCount := 2, lastHead := r }
        cum := (initialCum.update (stats 1)).update (stats 2)
        logPaths := [1, 2]
        invocations := 2 } := by
  simp [runLoop, loopIter, loopStep, NewStaleDetector, DefaultMaxStale,
    StaleDetector.check, h1, h3, h4, h6, hr]

/-- `runLoop` is fuel-monotone on terminated runs. -/
theorem runLoop_fuel_mono (env : LoopEnv) (opts : RunOptions)
    (fuel fuel' : Nat) (c sa : Bool) (st' : LoopState) (h : fuel ≤ fuel')
    (hrun : runLoop env opts fuel = .finished c sa st') :
    runLoop env opts fuel' = .finished c sa st' :=
  loopIter_fuel_mono env opts fuel fuel' 1 _ c sa st' h hrun

/-- C2: (a) with an iteration budget of one, a configured state file, a
cancellation-free context, agent invocations that complete with stats, and
a revision that differs before and after the iteration, the loop
terminates having invoked the agent exactly once and appends exactly one
RunRecord, with status `max_iterations`; (b) with an unbounded budget
(`MaxIterations = 0`) and a constant nonempty revision, the loop
terminates having invoked the agent exactly `DefaultMaxStale = 2` times
and appends exactly one RunRecord, with status `stale_abort`.  Both hold
for every fuel bound of at least 2 (the Go loop has no bound; the
conclusions are fuel-independent by `runLoop_fuel_mono`). -/
theorem c2_loop_terminal_statuses :
    (∀ (env : LoopEnv) (opts : RunOptions) (stats : Int → IterationStats)
        (prev : List RunRecord) (fuel : Nat),
      opts.maxIterations = 1 → opts.stateFile ≠ "" →
      (∀ i, env.agent i = ⟨some (stats i), false⟩) →
      (∀ i, env.cancelledAtBoundary i = false) →
      env.heads 1 ≠ env.heads 2 → 2 ≤ fuel →
      runInvocations env opts fuel = some 1 ∧
      (runRecordOf env opts fuel).map RunRecord.status =
        some RunStatus.maxIterations ∧
      runStore env opts fuel prev =
        some (prev ++ (runRecordOf env opts fuel).toList)) ∧
    (∀ (env : LoopEnv) (opts : RunOptions) (stats : Int → IterationStats)
        (r : String) (prev : List RunRecord) (fuel : Nat),
      opts.maxIterations = 0 → opts.stateFile ≠ "" → r ≠ "" →
      (∀ i, env.agent i = ⟨some (stats i), false⟩) →
      (∀ i, env.cancelledAtBoundary i = false) →
      (∀ j, env.heads j = r) → 2 ≤ fuel →
      runInvocations env opts fuel = some 2 ∧
      (runRecordOf env opts fuel).map RunRecord.status =
        some RunStatus.staleAbort ∧
      runStore env opts fuel prev =
        some (prev ++ (runRecordOf env opts fuel).toList)) := by
  constructor
  · intro env opts stats prev fuel h1 h2 h3 h4 h5 hfuel
    have hA := runLoop_fuel_mono env opts 2 fuel false false _ hfuel
      (runLoop_budget_one env opts stats h1 h3 h4 h5)
    refine ⟨?_, ?_, ?_⟩
    · simp [runInvocations, hA]
    · simp [runRecordOf, hA, mkRecord, runStatusOf, h1, CumulativeStats.update,
        initialCum]
    · simp [runStore, runRecordOf, hA, saveState, h2]
  · intro env opts stats r prev fuel h1 h2 hr h3 h4 h6 hfuel
    have hB := runLoop_fuel_mono env opts 2 fuel false true _ hfuel
      (runLoop_stale_two env opts stats r h1 hr h3 h4 h6)
    refine ⟨?_, ?_, ?_⟩
    · simp [runInvocations, hB]
    · simp [runRecordOf, hB, mkRecord, runStatusOf]
    · simp [runStore, runRecordOf, hB, saveState, h2]

/-- Witness for C2 at concrete environments: alternating revisions with a
budget of one give exactly one invocation and status `max_iterations`; a
constant revision with an unbounded budget gives exactly two invocations
and status `stale_abort`. -/
theorem c2_loop_terminal_statuses_witness :
    (runInvocations envAltHeadsFix optsOneIterFix 2 = some 1 ∧
      (runRecordOf envAltHeadsFix optsOneIterFix 2).map RunRecord.status =
        some RunStatus.maxIterations) ∧
    (runInvocations envStaleFix optsUnboundedFix 2 = some 2 ∧
      (runRecordOf envStaleFix optsUnboundedFix 2).map RunRecord.status =
        some RunStatus.staleAbort) := by
  have hA := c2_loop_terminal_statuses.1 envAltHeadsFix optsOneIterFix
    (fun _ => statsFix) [] 2 rfl (by decide) (fun _ => rfl) (fun _ => rfl)
    (by decide) (le_refl 2)
  have hB := c2_loop_terminal_statuses.2 envStaleFix optsUnboundedFix
    (fun _ => statsFix) "a" [] 2 rfl (by decide) (by decide) (fun _ => rfl)
    (fun _ => rfl) (fun _ => rfl) (le_refl 2)
  exact ⟨⟨hA.1, hA.2.1⟩, ⟨hB.1, hB.2.1⟩⟩

/-- C1, claim as stated, refuted: a loop run terminated by cancellation
firing mid-invocation persists nothing.  `runClaude` returns the partial
stats it accumulated together with the non-nil `ctx.Err()` (modelled by
the agent outcome `{stats := some statsFix, err := true}`); `Run` then
takes the `runErr != nil` branch and returns before `saveState`, so the
run-record store is left untouched — no RunRecord with status `cancelled`
is written and the partial stats are not preserved anywhere. -/
theorem c1_counterexample :
    envMidCancelFix.agent 1 = { stats := some statsFix, err := true } ∧
    runLoop envMidCancelFix optsUnboundedFix 3 = RunResult.fatal ∧
    runStore envMidCancelFix optsUnboundedFix 3 [] = some [] := by
  refine ⟨rfl, ?_, ?_⟩ <;> rfl

/-- C1 amended: when cancellation is observed at an iteration boundary
(the only exit that sets the cancelled flag), a RunRecord with status
`cancelled` is appended to the store, and the cumulative stats of the
completed iterations are preserved in it field by field; when cancellation
fires mid-invocation, the agent runner returns its partial stats but the
Loop treats the non-nil error as fatal and returns before persistence, so
the store is unchanged and that iteration's partial stats are dropped. -/
theorem c1_cancellation_persistence (env : LoopEnv) (opts : RunOptions)
    (fuel : Nat) (prev : List RunRecord) :
    (∀ st, runLoop env opts fuel = .finished true false st → opts.stateFile ≠ "" →
      runStore env opts fuel prev =
        some (prev ++ [mkRecord opts st.cum st.logPaths true false]) ∧
      (mkRecord opts st.cum st.logPaths true false).status = RunStatus.cancelled ∧
      (mkRecord opts st.cum st.logPaths true false).iterations = st.cum.iterations ∧
      (mkRecord opts st.cum st.logPaths true false).totalCost = st.cum.totalCost ∧
      (mkRecord opts st.cum st.logPaths true false).peakContext =
        st.cum.peakContext ∧
      (mkRecord opts st.cum st.logPaths true false).subagentTokens =
        st.cum.subagentTokens ∧
      (mkRecord opts st.cum st.logPaths true false).logFiles = st.logPaths) ∧
    (runLoop env opts fuel = .fatal → runStore env opts fuel prev = some prev) := by
  constructor
  · intro st h hsf
    refine ⟨?_, rfl, rfl, rfl, rfl, rfl, rfl⟩
    simp [runStore, h, saveState, hsf]
  · intro h
    simp [runStore, h]

/-- Witness for C1's amended theorem: a context already cancelled at the
first iteration boundary yields a persisted `cancelled` record carrying
the (zero) cumulative stats of the zero completed iterations. -/
theorem c1_cancellation_persistence_witness :
    runStore envBoundaryCancelFix optsUnboundedFix 3 [] =
      some [mkRecord optsUnboundedFix initialCum [] true false] ∧
    (mkRecord optsUnboundedFix initialCum [] true false).status =
      RunStatus.cancelled := by
  have h := (c1_cancellation_persistence envBoundaryCancelFix optsUnboundedFix 3 []).1
    { headCalls := 1
      stale := { maxStale := 2, staleCount := 0, lastHead := "h" }
      cum := initialCum
      logPaths := []
      invocations := 0 } rfl (by decide)
  exact ⟨h.1, h.2.1⟩

/-- Witness for C9: the stale-abort run of the constant-revision fixture
builds a record whose status is not `completed`. -/
theorem c9_never_persists_completed_witness :
    (mkRecord optsUnboundedFix ((initialCum.update statsFix).update statsFix)
        [1, 2] false true).status ≠ RunStatus.completed := by
  have hrun := runLoop_fuel_mono envStaleFix optsUnboundedFix 2 3 false true _
    (by omega)
    (runLoop_stale_two envStaleFix optsUnboundedFix (fun _ => statsFix) "a"
      rfl (by decide) (fun _ => rfl) (fun _ => rfl) (fun _ => rfl))
  exact (c9_never_persists_completed envStaleFix optsUnboundedFix 3 [] false true _
    (fun i h => by simp [envStaleFix]) hrun).1
